import Mathlib

/-!
Shallow embedding of the `kvpostgres` key-value adapter.

Keys and values are opaque byte strings (Go `string` / `BYTEA`), modelled
as `List Nat`.  The single SQL table `kv (key BYTEA PRIMARY KEY, value BYTEA)`
is modelled as an association list with (invariantly) pairwise-distinct keys.
The adapter functions `Tx.Get`, `Tx.Set`, `Tx.Delete`, `Tx.Commit`,
`Tx.Rollback`, `Tx.Ascend`, `Tx.Descend`, `DB.Close` and the process
supervisor's `Start` are embedded as pure functions below, following the
control flow of the Go source.
-/

/-- Byte strings: Go `string` values compared byte-lexicographically. -/
abbrev Bytes := List Nat

/-- Go's `<` on strings: byte-lexicographic order.  The empty string is the
least element. -/
def bytesLt : Bytes → Bytes → Bool
  | _, [] => false
  | [], _ :: _ => true
  | a :: as, b :: bs =>
    if a < b then true
    else if b < a then false
    else bytesLt as bs

/-- Go's `<=` on strings, expressed through `bytesLt`. -/
def bytesLe (a b : Bytes) : Bool := !(bytesLt b a)

theorem bytesLt_irrefl : ∀ a : Bytes, bytesLt a a = false := by
  intro a
  induction a with
  | nil => rfl
  | cons x xs ih => simp [bytesLt, ih]

theorem bytesLt_asymm : ∀ a b : Bytes,
    bytesLt a b = true → bytesLt b a = true → False := by
  intro a
  induction a with
  | nil => intro b h1 h2; cases b <;> simp [bytesLt] at h1 h2
  | cons x xs ih =>
    intro b h1 h2
    cases b with
    | nil => simp [bytesLt] at h1
    | cons y ys =>
      simp only [bytesLt] at h1 h2
      by_cases hxy : x < y
      · have : ¬ y < x := Nat.lt_asymm hxy
        simp [hxy, this] at h2
      · by_cases hyx : y < x
        · simp [hxy, hyx] at h1
        · simp [hxy, hyx] at h1 h2
          exact ih ys h1 h2

theorem bytesLt_trichotomy : ∀ a b : Bytes,
    bytesLt a b = true ∨ a = b ∨ bytesLt b a = true := by
  intro a
  induction a with
  | nil =>
    intro b
    cases b with
    | nil => exact Or.inr (Or.inl rfl)
    | cons y ys => exact Or.inl (by simp [bytesLt])
  | cons x xs ih =>
    intro b
    cases b with
    | nil => exact Or.inr (Or.inr (by simp [bytesLt]))
    | cons y ys =>
      rcases Nat.lt_trichotomy x y with hxy | hxy | hxy
      · exact Or.inl (by simp [bytesLt, hxy])
      · subst hxy
        rcases ih ys with h | h | h
        · exact Or.inl (by simp [bytesLt, h])
        · exact Or.inr (Or.inl (by rw [h]))
        · exact Or.inr (Or.inr (by simp [bytesLt, h]))
      · have hn : ¬ x < y := Nat.lt_asymm hxy
        exact Or.inr (Or.inr (by simp [bytesLt, hxy, hn]))

theorem bytesLt_trans : ∀ a b c : Bytes,
    bytesLt a b = true → bytesLt b c = true → bytesLt a c = true := by
  intro a
  induction a with
  | nil =>
    intro b c h1 h2
    cases c with
    | nil => cases b <;> simp [bytesLt] at h1 h2
    | cons z zs => simp [bytesLt]
  | cons x xs ih =>
    intro b c h1 h2
    cases b with
    | nil => simp [bytesLt] at h1
    | cons y ys =>
      cases c with
      | nil => simp [bytesLt] at h2
      | cons z zs =>
        simp only [bytesLt] at h1 h2 ⊢
        by_cases hxy : x < y
        · by_cases hyz : y < z
          · simp [Nat.lt_trans hxy hyz]
          · by_cases hzy : z < y
            · simp [hyz, hzy] at h2
            · have hyz' : y = z := Nat.le_antisymm (Nat.le_of_not_lt hzy) (Nat.le_of_not_lt hyz)
              subst hyz'
              simp [hxy]
        · by_cases hyx : y < x
          · simp [hxy, hyx] at h1
          · have hxy' : x = y := Nat.le_antisymm (Nat.le_of_not_lt hyx) (Nat.le_of_not_lt hxy)
            subst hxy'
            by_cases hyz : x < z
            · simp [hyz]
            · by_cases hzy : z < x
              · simp [hyz, hzy] at h2
              · simp [hxy, hyz, hzy] at h1 h2 ⊢
                exact ih ys zs h1 h2

/-- The `kv` table contents: rows of `(key, value)`. -/
abbrev Rows := List (Bytes × Bytes)

/-- Whether the table satisfies the `PRIMARY KEY` invariant: all keys distinct. -/
def keysNodup (rows : Rows) : Prop := (rows.map Prod.fst).Nodup

/-- `SELECT value FROM kv WHERE key = $1`: the value stored for `k`, if any. -/
def lookupKey (k : Bytes) : Rows → Option Bytes
  | [] => none
  | (k', v) :: rest => if k' = k then some v else lookupKey k rest

/-- The upsert statement
`INSERT INTO kv (key, value) VALUES ($1, $2) ON CONFLICT (key) DO UPDATE SET value = EXCLUDED.value`:
insert, or on primary-key conflict replace the stored value. -/
def upsert (k v : Bytes) : Rows → Rows
  | [] => [(k, v)]
  | (k', v') :: rest => if k' = k then (k, v) :: rest else (k', v') :: upsert k v rest

/-- `DELETE FROM kv WHERE key = $1`: remove every row with key `k`. -/
def removeKey (k : Bytes) : Rows → Rows
  | [] => []
  | (k', v) :: rest => if k' = k then removeKey k rest else (k', v) :: removeKey k rest

/-- Number of rows with key `k` (the `RowsAffected` count of a delete). -/
def countKey (k : Bytes) : Rows → Nat
  | [] => 0
  | (k', _) :: rest => if k' = k then countKey k rest + 1 else countKey k rest

theorem lookupKey_upsert_self (k v : Bytes) : ∀ rows : Rows,
    lookupKey k (upsert k v rows) = some v := by
  intro rows
  induction rows with
  | nil => simp [upsert, lookupKey]
  | cons r rest ih =>
    obtain ⟨k', v'⟩ := r
    by_cases h : k' = k
    · simp [upsert, lookupKey, h]
    · simp [upsert, lookupKey, h, ih]

theorem lookupKey_upsert_ne (k k' v : Bytes) (hne : k' ≠ k) : ∀ rows : Rows,
    lookupKey k (upsert k' v rows) = lookupKey k rows := by
  intro rows
  induction rows with
  | nil => simp [upsert, lookupKey, hne]
  | cons r rest ih =>
    obtain ⟨k₀, v₀⟩ := r
    by_cases h : k₀ = k'
    · subst h
      simp [upsert, lookupKey, hne]
    · simp only [upsert, if_neg h]
      by_cases h2 : k₀ = k <;> simp [lookupKey, h2, ih]

theorem lookupKey_removeKey_self (k : Bytes) : ∀ rows : Rows,
    lookupKey k (removeKey k rows) = none := by
  intro rows
  induction rows with
  | nil => simp [removeKey, lookupKey]
  | cons r rest ih =>
    obtain ⟨k₀, v₀⟩ := r
    by_cases h : k₀ = k
    · simpa [removeKey, h] using ih
    · simp [removeKey, h, lookupKey, ih]

theorem countKey_eq_zero_iff_lookupKey_none (k : Bytes) : ∀ rows : Rows,
    (countKey k rows = 0 ↔ lookupKey k rows = none) := by
  intro rows
  induction rows with
  | nil => simp [countKey, lookupKey]
  | cons r rest ih =>
    obtain ⟨k₀, v₀⟩ := r
    by_cases h : k₀ = k
    · simp [countKey, h, lookupKey]
    · simp [countKey, h, lookupKey, ih]

/-- Errors surfaced by the adapter.  `errClosed`, `errInvalid`, `errNotExist`
are `os.ErrClosed`, `os.ErrInvalid`, `os.ErrNotExist`; `couldNotCommit` and
`couldNotRollback` are the `fmt.Errorf("could not ...: %w", err)` wrappers
around an engine error; `streamFailed` is an error returned by reading the
value stream. -/
inductive PgErr
  | serializationFailure
  deriving DecidableEq, Repr

inductive GoErr
  | errClosed
  | errInvalid
  | errNotExist
  | streamFailed
  | couldNotCommit (e : PgErr)
  | couldNotRollback (e : PgErr)
  deriving DecidableEq, Repr

/-- Result of `io.ReadAll` on a non-nil value stream: either the stream
errors, or it yields the full byte payload. -/
inductive StreamRead
  | failed
  | bytes (b : Bytes)
  deriving DecidableEq, Repr

/-- `DB.checkKey`: empty keys are always rejected; otherwise the injected
validator (when present) decides. -/
def checkKey (checker : Option (Bytes → Bool)) (k : Bytes) : Bool :=
  if k.length = 0 then false
  else
    match checker with
    | none => true
    | some f => f k

/-- A `Tx` as seen by one caller: `opn` is whether `t.tx != nil` (the
transaction has not been finalized), `view` is the `kv` table contents as
visible inside this transaction (its snapshot plus its own writes). -/
structure SimpleTx where
  opn : Bool
  view : Rows
  deriving DecidableEq, Repr

/-- `DB.NewTransaction`: a fresh transaction whose view is the committed
table state. -/
def newTx (committed : Rows) : SimpleTx := { opn := true, view := committed }

/-- `Tx.Get`: closed check, key validation, `SELECT`; `sql.ErrNoRows` maps to
`os.ErrNotExist`. -/
def getOp (checker : Option (Bytes → Bool)) (t : SimpleTx) (k : Bytes) :
    Except GoErr Bytes :=
  if t.opn = false then .error .errClosed
  else if checkKey checker k = false then .error .errInvalid
  else
    match lookupKey k t.view with
    | none => .error .errNotExist
    | some v => .ok v

/-- `Tx.Set`: nil-stream check first, then closed check, then key validation,
then `io.ReadAll`, then the upsert statement. -/
def setOp (checker : Option (Bytes → Bool)) (t : SimpleTx) (k : Bytes)
    (v : Option StreamRead) : Except GoErr SimpleTx :=
  match v with
  | none => .error .errInvalid
  | some s =>
    if t.opn = false then .error .errClosed
    else if checkKey checker k = false then .error .errInvalid
    else
      match s with
      | .failed => .error .streamFailed
      | .bytes b => .ok { t with view := upsert k b t.view }

/-- `Tx.Delete`: closed check, key validation, `DELETE`, then `RowsAffected`;
zero affected rows maps to `os.ErrNotExist`. -/
def deleteOp (checker : Option (Bytes → Bool)) (t : SimpleTx) (k : Bytes) :
    Except GoErr SimpleTx :=
  if t.opn = false then .error .errClosed
  else if checkKey checker k = false then .error .errInvalid
  else if countKey k t.view = 0 then .error .errNotExist
  else .ok { t with view := removeKey k t.view }

/-- `Tx.Commit` against a lone transaction: the closed check, the deferred
`t.tx = nil` (which runs whether or not the engine commit fails), and the
error wrapper.  `engine` is the engine's verdict; on success the
transaction's view becomes the committed state. -/
def commitOp (t : SimpleTx) (committed : Rows) (engine : Option PgErr) :
    SimpleTx × Rows × Option GoErr :=
  if t.opn = false then (t, committed, some .errClosed)
  else
    match engine with
    | some e => ({ t with opn := false }, committed, some (.couldNotCommit e))
    | none => ({ t with opn := false }, t.view, none)

/-- `Tx.Rollback`: the closed check, the deferred `t.tx = nil`, and the error
wrapper; the committed state is never touched. -/
def rollbackOp (t : SimpleTx) (engine : Option PgErr) :
    SimpleTx × Option GoErr :=
  if t.opn = false then (t, some .errClosed)
  else
    match engine with
    | some e => ({ t with opn := false }, some (.couldNotRollback e))
    | none => ({ t with opn := false }, none)

/-- Row order used by `ORDER BY key ASC`: key of the first row is not
greater than the key of the second. -/
def keyLe (a b : Bytes × Bytes) : Prop := bytesLt b.1 a.1 = false

/-- Row order used by `ORDER BY key DESC`. -/
def keyGe (a b : Bytes × Bytes) : Prop := bytesLt a.1 b.1 = false

/-- Strict descending row order on keys. -/
def keyGt (a b : Bytes × Bytes) : Prop := bytesLt b.1 a.1 = true

instance : DecidableRel keyLe := fun _ _ => decEq _ _
instance : DecidableRel keyGe := fun _ _ => decEq _ _

instance : IsTotal (Bytes × Bytes) keyLe :=
  ⟨fun a b => by
    unfold keyLe
    by_cases h : bytesLt b.1 a.1 = true
    · right
      by_cases h2 : bytesLt a.1 b.1 = true
      · exact absurd (bytesLt_asymm _ _ h h2) (fun x => x)
      · exact Bool.not_eq_true _ ▸ (by simpa using h2)
    · left
      simpa using h⟩

instance : IsTrans (Bytes × Bytes) keyLe :=
  ⟨fun a b c hab hbc => by
    unfold keyLe at hab hbc ⊢
    by_cases hca : bytesLt c.1 a.1 = true
    · rcases bytesLt_trichotomy a.1 b.1 with h | h | h
      · have : bytesLt c.1 b.1 = true := bytesLt_trans _ _ _ hca h
        rw [this] at hbc
        cases hbc
      · rw [h] at hca
        rw [hca] at hbc
        cases hbc
      · rw [h] at hab
        cases hab
    · simpa using hca⟩

instance : IsTotal (Bytes × Bytes) keyGe :=
  ⟨fun a b => by
    unfold keyGe
    by_cases h : bytesLt a.1 b.1 = true
    · right
      by_cases h2 : bytesLt b.1 a.1 = true
      · exact absurd (bytesLt_asymm _ _ h h2) (fun x => x)
      · simpa using h2
    · left
      simpa using h⟩

instance : IsTrans (Bytes × Bytes) keyGe :=
  ⟨fun a b c hab hbc => by
    unfold keyGe at hab hbc ⊢
    by_cases hac : bytesLt a.1 c.1 = true
    · rcases bytesLt_trichotomy b.1 a.1 with h | h | h
      · have : bytesLt b.1 c.1 = true := bytesLt_trans _ _ _ h hac
        rw [this] at hbc
        cases hbc
      · rw [h] at hbc
        rw [hbc] at hac
        cases hac
      · rw [h] at hab
        cases hab
    · simpa using hac⟩

instance : IsAntisymm (Bytes × Bytes) keyGt :=
  ⟨fun _ _ hab hba => absurd (bytesLt_asymm _ _ hab hba) (fun x => x)⟩

/-- `SELECT key, value FROM kv WHERE <p key> ORDER BY key ASC`: rows whose
key satisfies the range predicate, in ascending key order. -/
def selectAsc (p : Bytes → Bool) (rows : Rows) : Rows :=
  List.insertionSort keyLe (rows.filter (fun r => p r.1))

/-- `SELECT key, value FROM kv WHERE <p key> ORDER BY key DESC`. -/
def selectDesc (p : Bytes → Bool) (rows : Rows) : Rows :=
  List.insertionSort keyGe (rows.filter (fun r => p r.1))

/-- `Tx.Ascend`: the full pair sequence yielded to a consumer that never
stops early, together with the final content of the out-of-band error slot
`errp`.  Mirrors the source: closed check, `beg > end && end != ""`
validation, then the four-way `switch` on which bounds are empty. -/
def ascendOp (t : SimpleTx) (beg e : Bytes) : Rows × Option GoErr :=
  if t.opn = false then ([], some .errClosed)
  else if bytesLt e beg && !e.isEmpty then ([], some .errInvalid)
  else if beg.isEmpty && e.isEmpty then
    (selectAsc (fun _ => true) t.view, none)
  else if !beg.isEmpty && !e.isEmpty then
    (selectAsc (fun k => bytesLe beg k && bytesLt k e) t.view, none)
  else if beg.isEmpty && !e.isEmpty then
    (selectAsc (fun k => bytesLt k e) t.view, none)
  else
    (selectAsc (fun k => bytesLe beg k) t.view, none)

/-- `Tx.Descend`: as `ascendOp`, with `ORDER BY key DESC` queries. -/
def descendOp (t : SimpleTx) (beg e : Bytes) : Rows × Option GoErr :=
  if t.opn = false then ([], some .errClosed)
  else if bytesLt e beg && !e.isEmpty then ([], some .errInvalid)
  else if beg.isEmpty && e.isEmpty then
    (selectDesc (fun _ => true) t.view, none)
  else if !beg.isEmpty && !e.isEmpty then
    (selectDesc (fun k => bytesLe beg k && bytesLt k e) t.view, none)
  else if beg.isEmpty && !e.isEmpty then
    (selectDesc (fun k => bytesLt k e) t.view, none)
  else
    (selectDesc (fun k => bytesLe beg k) t.view, none)

theorem keysNodup_iff_pairwise (l : Rows) :
    keysNodup l ↔ l.Pairwise (fun a b => a.1 ≠ b.1) := by
  unfold keysNodup
  rw [List.Nodup, List.pairwise_map]

/-- A list sorted weakly descending whose keys are pairwise distinct is
sorted strictly descending. -/
theorem pairwise_keyGt_of_keyGe (l : Rows) (hs : l.Pairwise keyGe)
    (hn : keysNodup l) : l.Pairwise keyGt := by
  rw [keysNodup_iff_pairwise] at hn
  have := hs.and hn
  refine this.imp ?_
  rintro a b ⟨hge, hne⟩
  rcases bytesLt_trichotomy b.1 a.1 with h | h | h
  · exact h
  · exact absurd h.symm hne
  · simp [keyGe, h] at hge

/-- On a table with pairwise-distinct keys, the descending sort is the
reverse of the ascending sort. -/
theorem selectDesc_eq_reverse_selectAsc (p : Bytes → Bool) (rows : Rows)
    (hn : keysNodup rows) :
    selectDesc p rows = (selectAsc p rows).reverse := by
  set l := rows.filter (fun r => p r.1) with hl
  have hnl : keysNodup l := by
    unfold keysNodup
    exact ((List.filter_sublist rows).map Prod.fst).nodup hn
  have permAsc : List.Perm (List.insertionSort keyLe l) l :=
    List.perm_insertionSort keyLe l
  have permDesc : List.Perm (List.insertionSort keyGe l) l :=
    List.perm_insertionSort keyGe l
  have perm : List.Perm (List.insertionSort keyGe l)
      (List.insertionSort keyLe l).reverse :=
    permDesc.trans (permAsc.symm.trans (List.reverse_perm _).symm)
  have sAsc : List.Pairwise keyLe (List.insertionSort keyLe l) :=
    List.sorted_insertionSort keyLe l
  have sDesc : List.Pairwise keyGe (List.insertionSort keyGe l) :=
    List.sorted_insertionSort keyGe l
  have sRev : List.Pairwise keyGe (List.insertionSort keyLe l).reverse := by
    rw [List.pairwise_reverse]
    refine sAsc.imp ?_
    intro a b h
    exact h
  have hnDesc : keysNodup (List.insertionSort keyGe l) := by
    unfold keysNodup
    exact (permDesc.map Prod.fst).nodup_iff.mpr hnl
  have hnRev : keysNodup ((List.insertionSort keyLe l).reverse) := by
    unfold keysNodup
    exact (((List.reverse_perm _).trans permAsc).map Prod.fst).nodup_iff.mpr hnl
  exact List.eq_of_perm_of_sorted perm
    (pairwise_keyGt_of_keyGe _ sDesc hnDesc)
    (pairwise_keyGt_of_keyGe _ sRev hnRev)

/-- Abstract world state seen by the process supervisor: whether the data
directory exists (is initialized) and whether the server is running. -/
structure SupvState where
  dirExists : Bool
  running : Bool
  deriving DecidableEq, Repr

/-- The shutdown handle returned by `Start`: either the no-op closure
`func() {}` or the closure `func() { v.stop(dataDir) }`. -/
inductive StopAction
  | noop
  | stopServer
  deriving DecidableEq, Repr

/-- Which side-effecting steps a `Start` call performed. -/
structure StartTrace where
  ranInit : Bool
  ranStartCmd : Bool
  deriving DecidableEq, Repr

/-- The `Start` function of the supervisor variant with the liveness check
(`pgCtl.running`), on the happy path where the `pg_ctl` binary is found and
every issued command succeeds: initialize the directory only when it does
not exist, then short-circuit with a no-op handle when the server is
already running, otherwise issue the start command and return a stopping
handle. -/
def startSupervisor (w : SupvState) : SupvState × StartTrace × StopAction :=
  let w1 := if w.dirExists then w else { w with dirExists := true }
  let didInit := !w.dirExists
  if w1.running then (w1, ⟨didInit, false⟩, .noop)
  else ({ w1 with running := true }, ⟨didInit, true⟩, .stopServer)

/-- A `DB` handle as relevant to `Close`: `stopf` is `nil` after a
successful `Close`, otherwise the shutdown handle obtained from `Start`. -/
structure DBHandle where
  stopf : Option StopAction
  deriving DecidableEq, Repr

/-- `DB.Close`: returns `os.ErrClosed` when `stopf` is already `nil`;
otherwise invokes the stored shutdown handle once and clears it.  The third
component is the shutdown action invoked by this call, if any. -/
def dbClose (d : DBHandle) : DBHandle × Option GoErr × Option StopAction :=
  match d.stopf with
  | none => (d, some .errClosed, none)
  | some f => ({ stopf := none }, none, some f)

/-- Modelled from the spec: the external engine's conflict detection under
serializable isolation (spec section 4.3, "Conflict-detection state
machine"), which is not code of this repository.  Two transactions with
buffered write sets commit in some order: the first committer succeeds; the
second succeeds exactly when its write set shares no key with the first
committer's, and otherwise fails with a serialization error. -/
def writesConflict (w1 w2 : Rows) : Bool :=
  w2.any (fun kv => w1.any (fun kv2 => kv2.1 = kv.1))

/-- Apply a transaction's buffered writes (a sequence of upserts) to the
committed table state. -/
def applyWrites (ws : Rows) (rows : Rows) : Rows :=
  ws.foldl (fun r kv => upsert kv.1 kv.2 r) rows

/-- `Tx.Commit` on an open transaction given the engine's verdict: the
deferred `t.tx = nil` always runs, and an engine error comes back wrapped
as `could not commit transaction: ...`. -/
def adapterCommit (engine : Option PgErr) : Option GoErr :=
  match engine with
  | some e => some (.couldNotCommit e)
  | none => none

/-- Two racing read-write transactions with buffered write sets `w1` and
`w2`, both calling `Commit`; `tx1First` fixes which commit reaches the
engine first.  The engine verdicts follow `writesConflict` (modelled from
the spec); each verdict is surfaced through the adapter's `Tx.Commit`
wrapper.  Returns `(err1, err2, finalRows)`. -/
def runTwoTx (db0 : Rows) (w1 w2 : Rows) (tx1First : Bool) :
    Option GoErr × Option GoErr × Rows :=
  let first := if tx1First then w1 else w2
  let second := if tx1First then w2 else w1
  let eFirst := adapterCommit none
  let conflict := writesConflict first second
  let eSecond := adapterCommit (if conflict then some .serializationFailure else none)
  let db1 := applyWrites first db0
  let db2 := if eSecond = none then applyWrites second db1 else db1
  if tx1First then (eFirst, eSecond, db2) else (eSecond, eFirst, db2)

theorem mem_keys_upsert (x k v : Bytes) : ∀ rows : Rows,
    (x ∈ (upsert k v rows).map Prod.fst ↔ x = k ∨ x ∈ rows.map Prod.fst) := by
  intro rows
  induction rows with
  | nil => simp [upsert]
  | cons r rest ih =>
    obtain ⟨k₀, v₀⟩ := r
    by_cases h : k₀ = k
    · subst h
      simp [upsert]
    · simp [upsert, h, ih]
      tauto

theorem countKey_eq_zero_of_not_mem (k : Bytes) : ∀ rows : Rows,
    k ∉ rows.map Prod.fst → countKey k rows = 0 := by
  intro rows
  induction rows with
  | nil => intro; rfl
  | cons r rest ih =>
    obtain ⟨k₀, v₀⟩ := r
    intro h
    simp only [List.map_cons, List.mem_cons] at h
    push_neg at h
    have hne : ¬ k₀ = k := fun hh => h.1 hh.symm
    simp [countKey, hne, ih h.2]

theorem keysNodup_upsert (k v : Bytes) : ∀ rows : Rows,
    keysNodup rows → keysNodup (upsert k v rows) := by
  intro rows
  induction rows with
  | nil => intro; simp [upsert, keysNodup]
  | cons r rest ih =>
    obtain ⟨k₀, v₀⟩ := r
    intro h
    unfold keysNodup at h
    simp only [List.map_cons, List.nodup_cons] at h
    by_cases hk : k₀ = k
    · subst hk
      unfold keysNodup
      simp [upsert, h.1, h.2]
    · unfold keysNodup
      simp only [upsert, if_neg hk, List.map_cons, List.nodup_cons]
      constructor
      · rw [mem_keys_upsert]
        push_neg
        exact ⟨hk, h.1⟩
      · exact ih h.2

theorem countKey_upsert_self (k v : Bytes) : ∀ rows : Rows,
    keysNodup rows → countKey k (upsert k v rows) = 1 := by
  intro rows
  induction rows with
  | nil => intro; simp [upsert, countKey]
  | cons r rest ih =>
    obtain ⟨k₀, v₀⟩ := r
    intro h
    unfold keysNodup at h
    simp only [List.map_cons, List.nodup_cons] at h
    by_cases hk : k₀ = k
    · subst hk
      simp [upsert, countKey, countKey_eq_zero_of_not_mem k₀ rest h.1]
    · simp [upsert, hk, countKey, ih h.2]

/-- C1: on an open transaction, for every key accepted by the injected
validator and every value (including the empty one), `Set(k, v)` succeeds as
an upsert — it never produces a duplicate-key error, a repeated `Set` on the
same key replaces the value and keeps the primary-key invariant with exactly
one row for `k` — and a subsequent `Get(k)` in the same transaction, or in a
later transaction after a successful commit, returns exactly `v`. -/
theorem set_then_get_returns_value (checker : Option (Bytes → Bool))
    (t : SimpleTx) (k v : Bytes)
    (hopen : t.opn = true) (hkey : checkKey checker k = true)
    (hnd : keysNodup t.view) :
    setOp checker t k (some (.bytes v)) = .ok { t with view := upsert k v t.view } ∧
    getOp checker { t with view := upsert k v t.view } k = .ok v ∧
    keysNodup (upsert k v t.view) ∧
    countKey k (upsert k v t.view) = 1 ∧
    (∀ v2 : Bytes,
      setOp checker { t with view := upsert k v t.view } k (some (.bytes v2)) =
        .ok { t with view := upsert k v2 (upsert k v t.view) } ∧
      getOp checker { t with view := upsert k v2 (upsert k v t.view) } k = .ok v2 ∧
      countKey k (upsert k v2 (upsert k v t.view)) = 1) ∧
    (∀ committed : Rows,
      commitOp { t with view := upsert k v t.view } committed none =
        ({ opn := false, view := upsert k v t.view }, upsert k v t.view, none) ∧
      getOp checker (newTx (upsert k v t.view)) k = .ok v) := by
  have hnd1 : keysNodup (upsert k v t.view) := keysNodup_upsert k v t.view hnd
  refine ⟨?_, ?_, hnd1, countKey_upsert_self k v t.view hnd, ?_, ?_⟩
  · simp [setOp, hopen, hkey]
  · simp [getOp, hopen, hkey, lookupKey_upsert_self]
  · intro v2
    refine ⟨?_, ?_, countKey_upsert_self k v2 _ hnd1⟩
    · simp [setOp, hopen, hkey]
    · simp [getOp, hopen, hkey, lookupKey_upsert_self]
  · intro committed
    constructor
    · simp [commitOp, hopen]
    · simp [getOp, newTx, hkey, lookupKey_upsert_self]

theorem set_then_get_returns_value_witness :
    setOp none { opn := true, view := [] } [1] (some (.bytes [])) =
      .ok { opn := true, view := [([1], [])] } ∧
    getOp none { opn := true, view := [([1], [])] } [1] = .ok [] :=
  ⟨(set_then_get_returns_value none { opn := true, view := [] } [1] []
      rfl rfl (by simp [keysNodup])).1,
   (set_then_get_returns_value none { opn := true, view := [] } [1] []
      rfl rfl (by simp [keysNodup])).2.1⟩

/-- C4: once a Commit or Rollback has successfully executed on a
transaction, that transaction is finalized (its handle is nil), and every
further Commit or Rollback call on it fails with the closed error and
changes nothing — it does not re-execute the engine operation. -/
theorem commit_rollback_finalize (t : SimpleTx) (committed : Rows)
    (hopen : t.opn = true) :
    commitOp t committed none = ({ t with opn := false }, t.view, none) ∧
    rollbackOp t none = ({ t with opn := false }, none) ∧
    (∀ (c : Rows) (e : Option PgErr),
      commitOp { t with opn := false } c e =
        ({ t with opn := false }, c, some .errClosed) ∧
      rollbackOp { t with opn := false } e =
        ({ t with opn := false }, some .errClosed)) := by
  refine ⟨?_, ?_, ?_⟩
  · simp [commitOp, hopen]
  · simp [rollbackOp, hopen]
  · intro c e
    constructor
    · simp [commitOp]
    · simp [rollbackOp]

theorem commit_rollback_finalize_witness :
    commitOp { opn := true, view := [] } [] none =
      ({ opn := false, view := [] }, [], none) ∧
    rollbackOp { opn := false, view := [] } none =
      ({ opn := false, view := [] }, some .errClosed) :=
  ⟨(commit_rollback_finalize { opn := true, view := [] } [] rfl).1,
   ((commit_rollback_finalize { opn := true, view := [] } [] rfl).2.2 [] none).2⟩

/-- C7: on an open transaction with a validator-accepted key, `Get` fails
with not-found exactly when no row for the key is visible, `Delete` fails
with not-found exactly when it affects zero rows, and otherwise `Delete`
removes the row, succeeds, and a subsequent `Get` of the key fails with
not-found. -/
theorem get_delete_not_found (checker : Option (Bytes → Bool))
    (t : SimpleTx) (k : Bytes)
    (hopen : t.opn = true) (hkey : checkKey checker k = true) :
    (getOp checker t k = .error .errNotExist ↔ lookupKey k t.view = none) ∧
    (lookupKey k t.view = none ↔ countKey k t.view = 0) ∧
    (countKey k t.view = 0 → deleteOp checker t k = .error .errNotExist) ∧
    (countKey k t.view ≠ 0 →
      deleteOp checker t k = .ok { t with view := removeKey k t.view } ∧
      getOp checker { t with view := removeKey k t.view } k =
        .error .errNotExist) := by
  refine ⟨?_, (countKey_eq_zero_iff_lookupKey_none k t.view).symm, ?_, ?_⟩
  · simp only [getOp, hopen, hkey]
    cases h : lookupKey k t.view <;> simp [h]
  · intro h0
    simp [deleteOp, hopen, hkey, h0]
  · intro h0
    constructor
    · simp [deleteOp, hopen, hkey, h0]
    · simp [getOp, hopen, hkey, lookupKey_removeKey_self]

theorem get_delete_not_found_witness :
    (getOp none { opn := true, view := [] } [1] = .error .errNotExist ↔
      lookupKey [1] ([] : Rows) = none) ∧
    (countKey [1] ([] : Rows) = 0 →
      deleteOp none { opn := true, view := [] } [1] = .error .errNotExist) :=
  ⟨(get_delete_not_found none { opn := true, view := [] } [1] rfl rfl).1,
   (get_delete_not_found none { opn := true, view := [] } [1] rfl rfl).2.2.1⟩

/-- C3 counterexample: on a terminal (closed) transaction, `Get` and
`Delete` with an empty key return the closed error, not the
invalid-argument error — the closed check precedes key validation. -/
theorem empty_key_terminal_counterexample :
    getOp none { opn := false, view := [] } [] = .error .errClosed ∧
    deleteOp none { opn := false, view := [] } [] = .error .errClosed ∧
    setOp none { opn := false, view := [] } [] (some (.bytes [])) =
      .error .errClosed ∧
    GoErr.errClosed ≠ GoErr.errInvalid := by
  refine ⟨rfl, rfl, rfl, ?_⟩
  intro h
  cases h

/-- C3 amended: on an open transaction, `Get`, `Set`, and `Delete` with an
empty key fail with invalid-argument; on a terminal transaction they fail
with the closed error instead (the closed check runs first), except that
`Set` with an absent (nil) value stream fails with invalid-argument in
every transaction state, because the nil check precedes the closed check. -/
theorem empty_key_invalid_amended (checker : Option (Bytes → Bool))
    (t : SimpleTx) (v : Bytes) (hopen : t.opn = true) :
    getOp checker t [] = .error .errInvalid ∧
    setOp checker t [] (some (.bytes v)) = .error .errInvalid ∧
    setOp checker t [] (some .failed) = .error .errInvalid ∧
    deleteOp checker t [] = .error .errInvalid ∧
    (∀ (t2 : SimpleTx) (k : Bytes), setOp checker t2 k none = .error .errInvalid) := by
  have hck : checkKey checker [] = false := by simp [checkKey]
  refine ⟨?_, ?_, ?_, ?_, ?_⟩
  · simp [getOp, hopen, hck]
  · simp [setOp, hopen, hck]
  · simp [setOp, hopen, hck]
  · simp [deleteOp, hopen, hck]
  · intro t2 k
    simp [setOp]

theorem empty_key_invalid_amended_witness :
    getOp none { opn := true, view := [] } [] = .error .errInvalid ∧
    setOp none { opn := false, view := [] } [7] none = .error .errInvalid :=
  ⟨(empty_key_invalid_amended none { opn := true, view := [] } [] rfl).1,
   (empty_key_invalid_amended none { opn := true, view := [] } [] rfl).2.2.2.2
     { opn := false, view := [] } [7]⟩

/-- C8 counterexample: after a failed Commit the transaction is terminal,
yet a `Set` call with an absent (nil) value stream on it returns the
invalid-argument error, not the closed error, because the nil check
precedes the closed check. -/
theorem terminal_set_nil_counterexample :
    commitOp { opn := true, view := [] } [] (some .serializationFailure) =
      ({ opn := false, view := [] }, [],
        some (.couldNotCommit .serializationFailure)) ∧
    setOp none { opn := false, view := [] } [1] none = .error .errInvalid ∧
    GoErr.errInvalid ≠ GoErr.errClosed := by
  refine ⟨rfl, rfl, ?_⟩
  intro h
  cases h

/-- C8 amended: a Commit or Rollback call on an open transaction makes the
transaction terminal even when the engine call fails (the engine error is
returned wrapped), and afterwards every Get, Delete, Commit, Rollback, and
every Set with a present value stream returns the closed error — a failed
Commit can never be retried; only Set with an absent (nil) value stream
still reports invalid-argument. -/
theorem terminal_after_engine_failure (checker : Option (Bytes → Bool))
    (t : SimpleTx) (committed : Rows) (e : PgErr) (hopen : t.opn = true) :
    commitOp t committed (some e) =
      ({ t with opn := false }, committed, some (.couldNotCommit e)) ∧
    rollbackOp t (some e) =
      ({ t with opn := false }, some (.couldNotRollback e)) ∧
    (∀ (k : Bytes) (s : StreamRead),
      getOp checker { t with opn := false } k = .error .errClosed ∧
      setOp checker { t with opn := false } k (some s) = .error .errClosed ∧
      deleteOp checker { t with opn := false } k = .error .errClosed ∧
      setOp checker { t with opn := false } k none = .error .errInvalid) ∧
    (∀ (c : Rows) (e2 : Option PgErr),
      commitOp { t with opn := false } c e2 =
        ({ t with opn := false }, c, some .errClosed) ∧
      rollbackOp { t with opn := false } e2 =
        ({ t with opn := false }, some .errClosed)) := by
  refine ⟨?_, ?_, ?_, ?_⟩
  · simp [commitOp, hopen]
  · simp [rollbackOp, hopen]
  · intro k s
    refine ⟨?_, ?_, ?_, ?_⟩
    · simp [getOp]
    · cases s <;> simp [setOp]
    · simp [deleteOp]
    · simp [setOp]
  · intro c e2
    constructor
    · simp [commitOp]
    · simp [rollbackOp]

theorem terminal_after_engine_failure_witness :
    commitOp { opn := true, view := [] } [] (some .serializationFailure) =
      ({ opn := false, view := [] }, [],
        some (.couldNotCommit .serializationFailure)) ∧
    getOp none { opn := false, view := [] } [1] = .error .errClosed :=
  ⟨(terminal_after_engine_failure none { opn := true, view := [] } []
      .serializationFailure rfl).1,
   ((terminal_after_engine_failure none { opn := true, view := [] } []
      .serializationFailure rfl).2.2.1 [1] .failed).1⟩

/-- C5: for every bounds pair and table state with distinct keys, `Descend`
yields exactly the reverse of the `Ascend` sequence for the same bounds —
the same pair set under the same half-open interval semantics — and leaves
the same error slot content. -/
theorem descend_eq_reverse_ascend (t : SimpleTx) (beg e : Bytes)
    (hn : keysNodup t.view) :
    descendOp t beg e =
      ((ascendOp t beg e).1.reverse, (ascendOp t beg e).2) := by
  unfold ascendOp descendOp
  split_ifs <;> simp [selectDesc_eq_reverse_selectAsc _ _ hn]

theorem descend_eq_reverse_ascend_witness :
    descendOp { opn := true, view := [([0], [5]), ([1], [6])] } [] [] =
      ((ascendOp { opn := true, view := [([0], [5]), ([1], [6])] } [] []).1.reverse,
       (ascendOp { opn := true, view := [([0], [5]), ([1], [6])] } [] []).2) :=
  descend_eq_reverse_ascend { opn := true, view := [([0], [5]), ([1], [6])] }
    [] [] (by simp [keysNodup])

/-- C6 counterexample: an Ascend or Descend call on a terminal (closed)
transaction with both bounds non-empty and begin greater than end stores
the closed error, not the invalid-argument error, in the error slot — the
closed check precedes the bounds validation. -/
theorem invalid_bounds_terminal_counterexample :
    ascendOp { opn := false, view := [] } [1] [0] = ([], some .errClosed) ∧
    descendOp { opn := false, view := [] } [1] [0] = ([], some .errClosed) ∧
    ([1] : Bytes) ≠ ([] : Bytes) ∧ ([0] : Bytes) ≠ ([] : Bytes) ∧
    bytesLt [0] [1] = true ∧
    GoErr.errClosed ≠ GoErr.errInvalid := by
  refine ⟨rfl, rfl, by decide, by decide, by decide, by decide⟩

/-- C6 amended: on an open transaction, Ascend and Descend store the
invalid-argument error and yield no pairs exactly when both bounds are
non-empty and begin is byte-lexicographically greater than end; for every
other bound combination no invalid-argument error is reported.  On a
terminal transaction the error slot receives the closed error instead. -/
theorem invalid_bounds_amended (t : SimpleTx) (beg e : Bytes)
    (hopen : t.opn = true) :
    ((beg ≠ [] ∧ e ≠ [] ∧ bytesLt e beg = true) →
      ascendOp t beg e = ([], some .errInvalid) ∧
      descendOp t beg e = ([], some .errInvalid)) ∧
    (¬(beg ≠ [] ∧ e ≠ [] ∧ bytesLt e beg = true) →
      (ascendOp t beg e).2 ≠ some .errInvalid ∧
      (descendOp t beg e).2 ≠ some .errInvalid) := by
  constructor
  · rintro ⟨hb, he, hlt⟩
    have hne : e.isEmpty = false := by
      cases e
      · exact absurd rfl he
      · rfl
    simp [ascendOp, descendOp, hopen, hlt, hne]
  · intro hnot
    have hcond : (bytesLt e beg && !e.isEmpty) = false := by
      by_cases he : e = []
      · subst he
        simp
      · by_cases hlt : bytesLt e beg = true
        · exfalso
          apply hnot
          refine ⟨?_, he, hlt⟩
          intro hbeg
          subst hbeg
          cases e <;> simp [bytesLt] at hlt
        · simp [Bool.not_eq_true] at hlt
          simp [hlt]
    constructor <;>
      · simp only [ascendOp, descendOp, hopen, hcond]
        split_ifs <;> simp

theorem invalid_bounds_amended_witness :
    ascendOp { opn := true, view := [] } [1] [0] = ([], some .errInvalid) ∧
    descendOp { opn := true, view := [] } [1] [0] = ([], some .errInvalid) :=
  (invalid_bounds_amended { opn := true, view := [] } [1] [0] rfl).1
    ⟨by decide, by decide, by decide⟩

/-- C2: two racing serializable transactions that both write the same key
and then both Commit: whichever commit reaches the engine first succeeds,
the other fails with the serialization error wrapped by the adapter (not
retried), exactly one of the two errors is nil, and the surviving stored
value is the successful committer's value.  Two racing transactions with
disjoint write sets both commit and both writes survive. -/
theorem racing_commits_exactly_one (db0 : Rows) (k v1 v2 : Bytes)
    (tx1First : Bool) :
    ((runTwoTx db0 [(k, v1)] [(k, v2)] tx1First).1 = none ∧
      (runTwoTx db0 [(k, v1)] [(k, v2)] tx1First).2.1 =
        some (.couldNotCommit .serializationFailure) ∧
      lookupKey k (runTwoTx db0 [(k, v1)] [(k, v2)] tx1First).2.2 = some v1) ∨
    ((runTwoTx db0 [(k, v1)] [(k, v2)] tx1First).1 =
        some (.couldNotCommit .serializationFailure) ∧
      (runTwoTx db0 [(k, v1)] [(k, v2)] tx1First).2.1 = none ∧
      lookupKey k (runTwoTx db0 [(k, v1)] [(k, v2)] tx1First).2.2 = some v2) := by
  cases tx1First
  · right
    simp [runTwoTx, writesConflict, adapterCommit, applyWrites,
      lookupKey_upsert_self]
  · left
    simp [runTwoTx, writesConflict, adapterCommit, applyWrites,
      lookupKey_upsert_self]

/-- C2, disjoint-keys half: two racing transactions whose write sets touch
different keys both commit successfully and both written values are
stored.  Stated over the same `runTwoTx` execution model. -/
theorem disjoint_commits_both_succeed (db0 : Rows) (k1 k2 v1 v2 : Bytes)
    (tx1First : Bool) (hne : k1 ≠ k2) :
    (runTwoTx db0 [(k1, v1)] [(k2, v2)] tx1First).1 = none ∧
    (runTwoTx db0 [(k1, v1)] [(k2, v2)] tx1First).2.1 = none ∧
    lookupKey k1 (runTwoTx db0 [(k1, v1)] [(k2, v2)] tx1First).2.2 = some v1 ∧
    lookupKey k2 (runTwoTx db0 [(k1, v1)] [(k2, v2)] tx1First).2.2 = some v2 := by
  cases tx1First
  · have hconf : writesConflict [(k2, v2)] [(k1, v1)] = false := by
      simp [writesConflict]
      exact fun h => absurd h.symm hne
    refine ⟨?_, ?_, ?_, ?_⟩ <;>
      simp [runTwoTx, hconf, adapterCommit, applyWrites,
        lookupKey_upsert_self, lookupKey_upsert_ne k2 k1 v1 hne]
  · have hconf : writesConflict [(k1, v1)] [(k2, v2)] = false := by
      simp [writesConflict]
      exact fun h => absurd h hne
    refine ⟨?_, ?_, ?_, ?_⟩ <;>
      simp [runTwoTx, hconf, adapterCommit, applyWrites,
        lookupKey_upsert_self, lookupKey_upsert_ne k1 k2 v2 (Ne.symm hne)]

/-- C2: with the engine's serializable conflict detection modelled from the
spec, two concurrent transactions that both write key `k` and both Commit
see exactly one nil error; the other receives the serialization failure
wrapped by the adapter (`could not commit transaction: ...`, not retried),
and the final stored value is the successful committer's value.  Two
concurrent transactions writing disjoint keys both commit and both values
are stored. -/
theorem conflicting_and_disjoint_commits (db0 : Rows) (k v1 v2 : Bytes)
    (tx1First : Bool) :
    (((runTwoTx db0 [(k, v1)] [(k, v2)] tx1First).1 = none ∧
      (runTwoTx db0 [(k, v1)] [(k, v2)] tx1First).2.1 =
        some (.couldNotCommit .serializationFailure) ∧
      lookupKey k (runTwoTx db0 [(k, v1)] [(k, v2)] tx1First).2.2 = some v1) ∨
     ((runTwoTx db0 [(k, v1)] [(k, v2)] tx1First).1 =
        some (.couldNotCommit .serializationFailure) ∧
      (runTwoTx db0 [(k, v1)] [(k, v2)] tx1First).2.1 = none ∧
      lookupKey k (runTwoTx db0 [(k, v1)] [(k, v2)] tx1First).2.2 = some v2)) ∧
    (∀ k1 k2 w1 w2 : Bytes, k1 ≠ k2 →
      (runTwoTx db0 [(k1, w1)] [(k2, w2)] tx1First).1 = none ∧
      (runTwoTx db0 [(k1, w1)] [(k2, w2)] tx1First).2.1 = none ∧
      lookupKey k1 (runTwoTx db0 [(k1, w1)] [(k2, w2)] tx1First).2.2 = some w1 ∧
      lookupKey k2 (runTwoTx db0 [(k1, w1)] [(k2, w2)] tx1First).2.2 = some w2) :=
  ⟨racing_commits_exactly_one db0 k v1 v2 tx1First,
   fun k1 k2 w1 w2 hne => disjoint_commits_both_succeed db0 k1 k2 w1 w2 tx1First hne⟩

theorem conflicting_and_disjoint_commits_witness :
    (((runTwoTx [] [([1], [2])] [([1], [3])] true).1 = none ∧
      (runTwoTx [] [([1], [2])] [([1], [3])] true).2.1 =
        some (.couldNotCommit .serializationFailure) ∧
      lookupKey [1] (runTwoTx [] [([1], [2])] [([1], [3])] true).2.2 = some [2]) ∨
     ((runTwoTx [] [([1], [2])] [([1], [3])] true).1 =
        some (.couldNotCommit .serializationFailure) ∧
      (runTwoTx [] [([1], [2])] [([1], [3])] true).2.1 = none ∧
      lookupKey [1] (runTwoTx [] [([1], [2])] [([1], [3])] true).2.2 = some [3])) ∧
    ((runTwoTx [] [([1], [2])] [([4], [5])] true).1 = none ∧
      (runTwoTx [] [([1], [2])] [([4], [5])] true).2.1 = none ∧
      lookupKey [1] (runTwoTx [] [([1], [2])] [([4], [5])] true).2.2 = some [2] ∧
      lookupKey [4] (runTwoTx [] [([1], [2])] [([4], [5])] true).2.2 = some [5]) :=
  ⟨(conflicting_and_disjoint_commits [] [1] [2] [3] true).1,
   (conflicting_and_disjoint_commits [] [1] [2] [3] true).2 [1] [4] [2] [5]
     (by decide)⟩

/-- C9: running `Start` against a world whose data directory is already
initialized and whose server is already running is a safe no-op: the
liveness check short-circuits, no initialization and no start command are
issued, the world is unchanged, and the returned shutdown handle is the
no-op handle. -/
theorem start_already_running_noop (w : SupvState)
    (hdir : w.dirExists = true) (hrun : w.running = true) :
    startSupervisor w = (w, { ranInit := false, ranStartCmd := false }, .noop) := by
  obtain ⟨d, r⟩ := w
  simp only at hdir hrun
  subst hdir
  subst hrun
  rfl

theorem start_already_running_noop_witness :
    startSupervisor { dirExists := true, running := true } =
      ({ dirExists := true, running := true },
        { ranInit := false, ranStartCmd := false }, .noop) :=
  start_already_running_noop { dirExists := true, running := true } rfl rfl

/-- C10: a database handle holding the shutdown handle obtained from
`Start` releases it on the first `Close` (returning nil and invoking the
stored shutdown action exactly once, which stops the server only when this
`Start` call is the one that issued the start command), and every
subsequent `Close` returns the distinct already-closed error and invokes
nothing. -/
theorem close_once_then_already_closed (w : SupvState) :
    dbClose { stopf := some (startSupervisor w).2.2 } =
      ({ stopf := none }, none, some (startSupervisor w).2.2) ∧
    ((startSupervisor w).2.2 = StopAction.stopServer ↔
      (startSupervisor w).2.1.ranStartCmd = true) ∧
    dbClose { stopf := none } = ({ stopf := none }, some .errClosed, none) := by
  obtain ⟨d, r⟩ := w
  cases d <;> cases r <;> simp [startSupervisor, dbClose]
